import Mathlib

/-!
Verification development for the beekeeping record-keeping application in
`src/index.tsx`.

The application keeps a list of hives, each with a list of inspection
reports, in an in-memory store; every mutating handler serializes the whole
store to browser local storage.  This file gives a shallow embedding of the
data model, the persistence adapter (`saveStateToLocalStorage` /
`loadStateFromLocalStorage`, with JSON values modelled by an inductive
`Json` type), the event handlers (`handleAddHive`, `handleAddInspection`,
`handleGetAIAdvice`, `handleAnalyzeImage`, each returning the new store
together with a trace of its observable effects), and the hive-list
renderer (`renderHivesView`, which — like the source, whose
`Array.prototype.sort` call is in place — returns the store it leaves
behind as well as the displayed cards).

Conventions of the embedding:
* Dates and `Date.now()` timestamps are modelled as natural numbers
  (millisecond counts); `new Date().toISOString()` and parsing back via
  `new Date(s).getTime()` form a bijection between those counts and the
  stored ISO strings, so the string detour is dropped and `date : Nat` is
  stored directly.
* Template-literal number-to-string conversion in the identifier
  expressions `hive_${Date.now()}` and `report_${Date.now()}` is modelled
  by `natStr`, the canonical decimal representation built from
  `Nat.digits 10`.
* The asynchronous AI calls are modelled by an `Except Unit String`
  argument: `.ok text` is a resolved response, `.error ()` is any failure
  (network error, API error, thrown exception).  The handlers are total
  Lean functions, so no failure escapes as an unhandled fault.
* `feedingAmount` and `notes` are declared optional in the source
  interface, but `handleAddInspection` always supplies both as (possibly
  empty) strings, so states produced by the handlers carry them as plain
  `String` fields.
-/

namespace Beekeeping

/-- Model of the JSON value universe produced by `JSON.stringify` and
consumed by `JSON.parse` in the persistence adapter. -/
inductive Json where
  | null : Json
  | str (s : String) : Json
  | num (n : Nat) : Json
  | arr (xs : List Json) : Json
  | obj (fields : List (String × Json)) : Json

/-- Model of the two-valued `'yes' | 'no'` string union used by the
observation fields of `InspectionReport`. -/
inductive YesNo where
  | yes
  | no
deriving DecidableEq

/-- Model of the `'good' | 'sufficient' | 'low'` string union used by the
`honeyStores` field. -/
inductive HoneyStores where
  | good
  | sufficient
  | low
deriving DecidableEq

/-- Model of the `InspectionReport` interface of `src/index.tsx` (line 8).
The `date` field holds the millisecond timestamp denoted by the stored ISO
string. -/
structure InspectionReport where
  id : String
  date : Nat
  queen : YesNo
  disease : YesNo
  eggs : YesNo
  honeyStores : HoneyStores
  feeding : YesNo
  feedingAmount : String
  notes : String
deriving DecidableEq

/-- Model of the `Hive` interface of `src/index.tsx` (line 20). -/
structure Hive where
  id : String
  name : String
  location : String
  reports : List InspectionReport
deriving DecidableEq

/-- Model of the `AppState` interface of `src/index.tsx` (line 27). -/
structure AppState where
  hives : List Hive
deriving DecidableEq

/-- Canonical decimal string of a natural number; models the JavaScript
number-to-string conversion performed by the template literals in the
identifier expressions (`Nat.digits 10` lists the digits least significant
first, hence the `reverse`). -/
def natStr (n : Nat) : String :=
  if n = 0 then "0" else ⟨((Nat.digits 10 n).reverse.map Nat.digitChar)⟩

/-- Model of the identifier expression `hive_${Date.now()}` at line 274 of
`src/index.tsx`. -/
def mkHiveId (now : Nat) : String := "hive_" ++ natStr now

/-- Model of the identifier expression `report_${Date.now()}` at line 294
of `src/index.tsx`. -/
def mkReportId (now : Nat) : String := "report_" ++ natStr now

/-- The `newHive` object literal built by `handleAddHive` (lines 273-278). -/
def newHive (now : Nat) (name location : String) : Hive :=
  { id := mkHiveId now, name := name, location := location, reports := [] }

/-- The values of the new-inspection form as read by `handleAddInspection`
(lines 296-302): five required choice fields plus the two free-text fields,
which the form always supplies as (possibly empty) strings. -/
structure InspectionForm where
  queen : YesNo
  disease : YesNo
  eggs : YesNo
  honeyStores : HoneyStores
  feeding : YesNo
  feedingAmount : String
  notes : String
deriving DecidableEq

/-- String carried by the `'yes' | 'no'` union members in the JSON blob. -/
def yesNoStr : YesNo → String
  | .yes => "yes"
  | .no => "no"

/-- String carried by the `honeyStores` union members in the JSON blob. -/
def honeyStoresStr : HoneyStores → String
  | .good => "good"
  | .sufficient => "sufficient"
  | .low => "low"

/-- JSON object produced for one report by `JSON.stringify(state)`; the
field order follows the object literal at lines 293-303. -/
def encodeReport (r : InspectionReport) : Json :=
  .obj [("id", .str r.id), ("date", .num r.date), ("queen", .str (yesNoStr r.queen)),
        ("disease", .str (yesNoStr r.disease)), ("eggs", .str (yesNoStr r.eggs)),
        ("honeyStores", .str (honeyStoresStr r.honeyStores)),
        ("feeding", .str (yesNoStr r.feeding)),
        ("feedingAmount", .str r.feedingAmount), ("notes", .str r.notes)]

/-- JSON object produced for one hive by `JSON.stringify(state)`; the field
order follows the object literal at lines 273-278. -/
def encodeHive (h : Hive) : Json :=
  .obj [("id", .str h.id), ("name", .str h.name), ("location", .str h.location),
        ("reports", .arr (h.reports.map encodeReport))]

/-- JSON blob written by `saveStateToLocalStorage` (line 90):
`JSON.stringify(state)` for the root state object. -/
def encodeState (s : AppState) : Json :=
  .obj [("hives", .arr (s.hives.map encodeHive))]

/-- Property access on a parsed JSON value: `j[key]`, `none` when the value
is not an object or lacks the key. -/
def getField (j : Json) (key : String) : Option Json :=
  match j with
  | .obj fields => (fields.find? (fun p => p.1 == key)).map Prod.snd
  | _ => none

/-- Read a JSON value as a string, as the program does when it uses a
parsed field in string position. -/
def asStr : Json → Option String
  | .str s => some s
  | _ => none

/-- Read a JSON value as a (timestamp) number. -/
def asNum : Json → Option Nat
  | .num n => some n
  | _ => none

/-- Read a JSON value as an array. -/
def asArr : Json → Option (List Json)
  | .arr xs => some xs
  | _ => none

/-- Interpret a parsed string as a member of the `'yes' | 'no'` union. -/
def parseYesNo (s : String) : Option YesNo :=
  if s = "yes" then some .yes else if s = "no" then some .no else none

/-- Interpret a parsed string as a member of the `honeyStores` union. -/
def parseHoneyStores (s : String) : Option HoneyStores :=
  if s = "good" then some .good
  else if s = "sufficient" then some .sufficient
  else if s = "low" then some .low
  else none

/-- Interpret a parsed JSON value as an `InspectionReport`, reading exactly
the fields the program reads; `JSON.parse` performs no schema validation,
so a blob of the wrong shape yields `none` (modelling the crash noted in
the persistence contract). -/
def decodeReport (j : Json) : Option InspectionReport := do
  let i ← (getField j "id").bind asStr
  let d ← (getField j "date").bind asNum
  let q ← ((getField j "queen").bind asStr).bind parseYesNo
  let di ← ((getField j "disease").bind asStr).bind parseYesNo
  let e ← ((getField j "eggs").bind asStr).bind parseYesNo
  let hs ← ((getField j "honeyStores").bind asStr).bind parseHoneyStores
  let fe ← ((getField j "feeding").bind asStr).bind parseYesNo
  let fa ← (getField j "feedingAmount").bind asStr
  let no ← (getField j "notes").bind asStr
  pure { id := i, date := d, queen := q, disease := di, eggs := e,
         honeyStores := hs, feeding := fe, feedingAmount := fa, notes := no }

/-- Interpret a parsed JSON array as a list of reports. -/
def decodeReports : List Json → Option (List InspectionReport)
  | [] => some []
  | j :: js => do
    let r ← decodeReport j
    let rs ← decodeReports js
    pure (r :: rs)

/-- Interpret a parsed JSON value as a `Hive`. -/
def decodeHive (j : Json) : Option Hive := do
  let i ← (getField j "id").bind asStr
  let n ← (getField j "name").bind asStr
  let l ← (getField j "location").bind asStr
  let rj ← (getField j "reports").bind asArr
  let rs ← decodeReports rj
  pure { id := i, name := n, location := l, reports := rs }

/-- Interpret a parsed JSON array as a list of hives. -/
def decodeHives : List Json → Option (List Hive)
  | [] => some []
  | j :: js => do
    let h ← decodeHive j
    let hs ← decodeHives js
    pure (h :: hs)

/-- Interpret a parsed JSON blob as the `AppState`. -/
def decodeState (j : Json) : Option AppState := do
  let hj ← (getField j "hives").bind asArr
  let hs ← decodeHives hj
  pure { hives := hs }

/-- Model of `saveStateToLocalStorage` (lines 89-91): serialize the whole
state and overwrite the fixed storage key unconditionally. -/
def saveStateToLocalStorage (s : AppState) : Json := encodeState s

/-- Model of `loadStateFromLocalStorage` (lines 82-87): when the key is
absent the in-memory state is kept; when present the blob is parsed and
becomes the state (`none` models the unrecoverable parse/shape crash). -/
def loadStateFromLocalStorage (storage : Option Json) (current : AppState) :
    Option AppState :=
  match storage with
  | none => some current
  | some j => decodeState j

/-- Observable effects a handler performs besides updating the store, in
program order. -/
inductive Effect where
  | save (blob : Json)
  | render
  | closeModal (modalId : String)
  | resetForm
  | hideFeedingAmountGroup
  | alert (msg : String)
  | netRequest
  | setOutput (region : String) (text : String)
  | setLoading (b : Bool)

/-- Model of `handleAddHive` (lines 269-284): build the new hive, push it,
persist, re-render, close the dialog, reset the form. -/
def handleAddHive (now : Nat) (name location : String) (s : AppState) :
    AppState × List Effect :=
  let s' : AppState := { hives := s.hives ++ [newHive now name location] }
  (s', [.save (saveStateToLocalStorage s'), .render, .closeModal "add-hive-modal",
        .resetForm])

/-- The report object literal built by `handleAddInspection`
(lines 293-303); its `date` is set at submission time from the clock, not
from the form. -/
def mkReport (now : Nat) (f : InspectionForm) : InspectionReport :=
  { id := mkReportId now, date := now, queen := f.queen, disease := f.disease,
    eggs := f.eggs, honeyStores := f.honeyStores, feeding := f.feeding,
    feedingAmount := f.feedingAmount, notes := f.notes }

/-- Appending a report to the hive found by `state.hives.find` mutates that
hive in place (line 305); in the embedding, the first hive whose identifier
matches gets the report appended. -/
def pushReport : List Hive → String → InspectionReport → List Hive
  | [], _, _ => []
  | h :: hs, hid, r =>
    if h.id == hid then { h with reports := h.reports ++ [r] } :: hs
    else h :: pushReport hs hid r

/-- Model of `state.hives.find(h => h.id === hiveId)` (line 290). -/
def findHive (s : AppState) (hid : String) : Option Hive :=
  s.hives.find? (fun h => h.id == hid)

/-- Model of `handleAddInspection` (lines 286-311): look the target hive up
by the identifier carried in the hidden field; abort silently when it is
missing; otherwise append the report, persist, re-render, close the
dialog, reset the form and the conditional field. -/
def handleAddInspection (now : Nat) (hid : String) (f : InspectionForm)
    (s : AppState) : AppState × List Effect :=
  match findHive s hid with
  | none => (s, [])
  | some _ =>
    let s' : AppState := { hives := pushReport s.hives hid (mkReport now f) }
    (s', [.save (saveStateToLocalStorage s'), .render,
          .closeModal "add-inspection-modal", .resetForm, .hideFeedingAmountGroup])

/-- Alert text of the zero-hives guard in `handleGetAIAdvice` (line 315). -/
def noHivesAlertMsg : String := "Analiz etmək üçün heç bir pətək məlumatı yoxdur."

/-- Generic localized error text written by the catch branch of
`handleGetAIAdvice` (line 339). -/
def adviceErrorMsg : String :=
  "Analiz zamanı xəta baş verdi. Zəhmət olmasa, bir az sonra yenidən cəhd edin."

/-- Alert text of the no-file guard in `handleAnalyzeImage` (line 362). -/
def noFileAlertMsg : String := "Zəhmət olmasa, analiz etmək üçün bir şəkil seçin."

/-- Generic localized error text written by the catch branch of
`handleAnalyzeImage` (line 393). -/
def imageErrorMsg : String :=
  "Şəkil analizi zamanı xəta baş verdi. Zəhmət olmasa, bir az sonra yenidən cəhd edin."

/-- Model of `handleGetAIAdvice` (lines 313-343).  `res` stands for the
outcome of the awaited AI call: `.ok t` a resolved response with text `t`,
`.error ()` any failure; the catch/finally structure becomes the trace
`[setLoading true, clear output, request, write result-or-error,
setLoading false]`. -/
def handleGetAIAdvice (res : Except Unit String) (s : AppState) :
    AppState × List Effect :=
  if s.hives.length = 0 then
    (s, [.alert noHivesAlertMsg])
  else
    (s, [.setLoading true, .setOutput "ai-advice-result" "", .netRequest,
         .setOutput "ai-advice-result"
           (match res with
            | .ok t => t
            | .error _ => adviceErrorMsg),
         .setLoading false])

/-- Model of `handleAnalyzeImage` (lines 359-397).  `hasFile` models the
file-selected guard, `conv` the outcome of `fileToBase64` (whose rejection
is caught by the same catch block, before any request is issued), `res`
the outcome of the awaited AI call. -/
def handleAnalyzeImage (hasFile : Bool) (conv res : Except Unit String)
    (s : AppState) : AppState × List Effect :=
  if hasFile = false then
    (s, [.alert noFileAlertMsg])
  else
    (s, [.setLoading true, .setOutput "image-analysis-result" ""] ++
        (match conv with
         | .error _ => [.setOutput "image-analysis-result" imageErrorMsg]
         | .ok _ =>
           [.netRequest,
            .setOutput "image-analysis-result"
              (match res with
               | .ok t => t
               | .error _ => imageErrorMsg)]) ++
        [.setLoading false])

/-- The successive values written to the loading indicator by a trace. -/
def loadingWrites (es : List Effect) : List Bool :=
  es.filterMap (fun e =>
    match e with
    | .setLoading b => some b
    | _ => none)

/-- Final state of the loading indicator after a trace (`none`: untouched). -/
def finalLoading (es : List Effect) : Option Bool := (loadingWrites es).getLast?

/-- The successive texts written to a given output region by a trace. -/
def outputWrites (region : String) (es : List Effect) : List String :=
  es.filterMap (fun e =>
    match e with
    | .setOutput r t => if r == region then some t else none
    | _ => none)

/-- Final content of an output region after a trace (`none`: untouched). -/
def finalOutput (region : String) (es : List Effect) : Option String :=
  (outputWrites region es).getLast?

/-- Replay the persistence writes of a trace onto the stored blob: each
`save` overwrites the fixed key unconditionally. -/
def applyEffects (storage : Option Json) (es : List Effect) : Option Json :=
  es.foldl (fun acc e =>
    match e with
    | .save j => some j
    | _ => acc) storage

/-- The in-memory store and its persisted copy agree. -/
def persistedOK (s : AppState) (storage : Option Json) : Prop :=
  storage = some (encodeState s)

/-- The descending-date comparator of the sort call at line 195:
`(a, b) => new Date(b.date).getTime() - new Date(a.date).getTime()` orders
`a` before `b` exactly when `b.date ≤ a.date`. -/
def reportLe (a b : InspectionReport) : Bool := decide (b.date ≤ a.date)

/-- Model of `hive.reports.sort(...)` at line 195: a comparison sort under
the descending-date comparator. -/
def sortReportsDesc (rs : List InspectionReport) : List InspectionReport :=
  rs.mergeSort reportLe

/-- Visible content of one hive card produced by `renderHivesView`. -/
structure HiveCard where
  name : String
  location : String
  reports : List InspectionReport
deriving DecidableEq

/-- Model of `renderHivesView` (lines 173-232).  The sort at line 195 is
`Array.prototype.sort`, which reorders `hive.reports` in place, so the
renderer returns both the store it leaves behind (every hive's reports now
in descending date order) and the displayed cards. -/
def renderHivesView (s : AppState) : AppState × List HiveCard :=
  ({ hives := s.hives.map (fun h => { h with reports := sortReportsDesc h.reports }) },
   s.hives.map (fun h =>
     { name := h.name, location := h.location, reports := sortReportsDesc h.reports }))

/-- A data-mutating user action with the clock value at which it runs. -/
inductive Action where
  | addHive (now : Nat) (name location : String)
  | addInspection (now : Nat) (hid : String) (f : InspectionForm)

/-- Clock value of an action. -/
def Action.time : Action → Nat
  | .addHive t _ _ => t
  | .addInspection t _ _ => t

/-- Store left behind by one action. -/
def applyAction (s : AppState) (a : Action) : AppState :=
  match a with
  | .addHive t n l => (handleAddHive t n l s).1
  | .addInspection t hid f => (handleAddInspection t hid f s).1

/-- Store left behind by a sequence of actions. -/
def runActions (s : AppState) (acts : List Action) : AppState :=
  acts.foldl applyAction s

/-- Store left behind by a sequence of add-hive submissions, each given as
(clock value, name, location). -/
def runAddHives (s : AppState) (adds : List (Nat × String × String)) : AppState :=
  adds.foldl (fun st a => (handleAddHive a.1 a.2.1 a.2.2 st).1) s

/-- Identifiers of all hives in the store, in order. -/
def hiveIds (s : AppState) : List String := s.hives.map Hive.id

/-- Identifiers of all reports of a hive list, in order. -/
def reportIdsOf (hives : List Hive) : List String :=
  (hives.map (fun h => h.reports.map InspectionReport.id)).flatten

/-- Identifiers of all reports in the store, in order. -/
def reportIds (s : AppState) : List String := reportIdsOf s.hives

/-- Freshness invariant for identifier uniqueness: every identifier in the
store was minted at some clock value below `t`, and both identifier
families are duplicate-free. -/
def idsFresh (t : Nat) (s : AppState) : Prop :=
  (∀ i ∈ hiveIds s, ∃ u, u < t ∧ i = mkHiveId u) ∧
  (∀ i ∈ reportIds s, ∃ u, u < t ∧ i = mkReportId u) ∧
  (hiveIds s).Nodup ∧ (reportIds s).Nodup

/-- A concrete report whose date (and identifier clock value) is `t`, used
as test data. -/
def repAt (t : Nat) : InspectionReport :=
  { id := mkReportId t, date := t, queen := .yes, disease := .no, eggs := .yes,
    honeyStores := .good, feeding := .no, feedingAmount := "", notes := "" }

/-! ### Round-trip of the persistence adapter -/

theorem decodeReport_encodeReport (r : InspectionReport) :
    decodeReport (encodeReport r) = some r := by
  cases r with
  | mk i d q di e hs fe fa no =>
    cases q <;> cases di <;> cases e <;> cases hs <;> cases fe <;> rfl

theorem decodeReports_map_encodeReport (rs : List InspectionReport) :
    decodeReports (rs.map encodeReport) = some rs := by
  induction rs with
  | nil => rfl
  | cons r rs ih => simp [decodeReports, decodeReport_encodeReport, ih]

theorem decodeHive_encodeHive (h : Hive) :
    decodeHive (encodeHive h) = some h := by
  cases h with
  | mk i n l rs =>
    simp [decodeHive, encodeHive, getField, asStr, asArr,
      decodeReports_map_encodeReport]

theorem decodeHives_map_encodeHive (hs : List Hive) :
    decodeHives (hs.map encodeHive) = some hs := by
  induction hs with
  | nil => rfl
  | cons h hs ih => simp [decodeHives, decodeHive_encodeHive, ih]

theorem decodeState_encodeState (s : AppState) :
    decodeState (encodeState s) = some s := by
  cases s with
  | mk hs =>
    simp [decodeState, encodeState, getField, asArr, decodeHives_map_encodeHive]

/-- C1: for every application state whose hives and reports were produced
by the add-hive and add-inspection handlers (every value of `AppState` has
that shape), saving the state and then loading it yields exactly the same
state: same hives, same report contents, same ordering of reports within
each hive. -/
theorem save_load_round_trip (s current : AppState) :
    loadStateFromLocalStorage (some (saveStateToLocalStorage s)) current = some s := by
  simp [loadStateFromLocalStorage, saveStateToLocalStorage, decodeState_encodeState]

/-! ### Adding hives -/

theorem runAddHives_hives (s : AppState) (adds : List (Nat × String × String)) :
    (runAddHives s adds).hives =
      s.hives ++ adds.map (fun a => newHive a.1 a.2.1 a.2.2) := by
  induction adds generalizing s with
  | nil => simp [runAddHives]
  | cons a as ih =>
    have step : runAddHives s (a :: as) =
        runAddHives ((handleAddHive a.1 a.2.1 a.2.2 s).1) as := rfl
    rw [step, ih]
    simp [handleAddHive]

/-- C2: for every sequence of add-hive actions starting from any state, the
number of hives in the store equals the initial count plus the number of
additions performed, and every newly added hive has an empty reports
collection. -/
theorem add_hive_count_and_empty_reports (s : AppState)
    (adds : List (Nat × String × String)) :
    (runAddHives s adds).hives.length = s.hives.length + adds.length ∧
    ∀ h ∈ (runAddHives s adds).hives.drop s.hives.length, h.reports = [] := by
  constructor
  · rw [runAddHives_hives]
    simp
  · intro h hh
    rw [runAddHives_hives] at hh
    have hdrop :
        (s.hives ++ adds.map (fun a => newHive a.1 a.2.1 a.2.2)).drop s.hives.length
          = adds.map (fun a => newHive a.1 a.2.1 a.2.2) := by
      simp
    rw [hdrop] at hh
    obtain ⟨a, _, rfl⟩ := List.mem_map.mp hh
    rfl

/-! ### Adding inspections -/

theorem find?_pushReport (hives : List Hive) (hid : String) (r : InspectionReport)
    (hv : Hive) (h : hives.find? (fun h => h.id == hid) = some hv) :
    (pushReport hives hid r).find? (fun h => h.id == hid) =
      some { hv with reports := hv.reports ++ [r] } := by
  induction hives with
  | nil => simp at h
  | cons a as ih =>
    cases ha : (a.id == hid) with
    | true =>
      have hfind : List.find? (fun h => h.id == hid) (a :: as) = some a := by
        simp [List.find?, ha]
      rw [hfind] at h
      obtain rfl : a = hv := by simpa using h
      have hpush : pushReport (a :: as) hid r =
          { a with reports := a.reports ++ [r] } :: as := by
        simp [pushReport, ha]
      rw [hpush]
      simp [List.find?, ha]
    | false =>
      have hfind : List.find? (fun h => h.id == hid) (a :: as) =
          List.find? (fun h => h.id == hid) as := by
        simp [List.find?, ha]
      rw [hfind] at h
      have hpush : pushReport (a :: as) hid r = a :: pushReport as hid r := by
        simp [pushReport, ha]
      rw [hpush]
      have hstep : List.find? (fun h => h.id == hid) (a :: pushReport as hid r) =
          List.find? (fun h => h.id == hid) (pushReport as hid r) := by
        simp [List.find?, ha]
      rw [hstep]
      exact ih h

/-- C3: for every add-inspection action whose target hive identifier is
present in the store (i.e. the lookup at line 290 succeeds), that hive's
report count increases by exactly one, the appended report is the one built
from the form, and the new report's six required fields — queen, disease,
eggs, honeyStores, feeding, plus the date set at submission time — equal
the submitted values exactly. -/
theorem add_inspection_appends_form_report (now : Nat) (hid : String)
    (f : InspectionForm) (s : AppState) (hv : Hive)
    (hfind : findHive s hid = some hv) :
    ∃ hv', findHive (handleAddInspection now hid f s).1 hid = some hv' ∧
      hv'.reports.length = hv.reports.length + 1 ∧
      hv'.reports.getLast? = some (mkReport now f) ∧
      (mkReport now f).queen = f.queen ∧ (mkReport now f).disease = f.disease ∧
      (mkReport now f).eggs = f.eggs ∧
      (mkReport now f).honeyStores = f.honeyStores ∧
      (mkReport now f).feeding = f.feeding ∧ (mkReport now f).date = now := by
  refine ⟨{ hv with reports := hv.reports ++ [mkReport now f] }, ?_, by simp,
    List.getLast?_concat _, rfl, rfl, rfl, rfl, rfl, rfl⟩
  simp only [handleAddInspection, hfind]
  exact find?_pushReport s.hives hid (mkReport now f) hv hfind

/-- Witness for `add_inspection_appends_form_report` at a concrete store
holding one hive with identifier "h1" and an empty report list. -/
theorem add_inspection_appends_form_report_witness :
    findHive ⟨[⟨"h1", "Pətək 1", "Bağ", []⟩]⟩ "h1" = some ⟨"h1", "Pətək 1", "Bağ", []⟩ ∧
    ∃ hv', findHive
        (handleAddInspection 7 "h1" ⟨.yes, .no, .yes, .good, .no, "", ""⟩
          ⟨[⟨"h1", "Pətək 1", "Bağ", []⟩]⟩).1 "h1" = some hv' ∧
      hv'.reports.length = (⟨"h1", "Pətək 1", "Bağ", []⟩ : Hive).reports.length + 1 ∧
      hv'.reports.getLast? = some (mkReport 7 ⟨.yes, .no, .yes, .good, .no, "", ""⟩) ∧
      (mkReport 7 ⟨.yes, .no, .yes, .good, .no, "", ""⟩).queen =
        (⟨.yes, .no, .yes, .good, .no, "", ""⟩ : InspectionForm).queen ∧
      (mkReport 7 ⟨.yes, .no, .yes, .good, .no, "", ""⟩).disease =
        (⟨.yes, .no, .yes, .good, .no, "", ""⟩ : InspectionForm).disease ∧
      (mkReport 7 ⟨.yes, .no, .yes, .good, .no, "", ""⟩).eggs =
        (⟨.yes, .no, .yes, .good, .no, "", ""⟩ : InspectionForm).eggs ∧
      (mkReport 7 ⟨.yes, .no, .yes, .good, .no, "", ""⟩).honeyStores =
        (⟨.yes, .no, .yes, .good, .no, "", ""⟩ : InspectionForm).honeyStores ∧
      (mkReport 7 ⟨.yes, .no, .yes, .good, .no, "", ""⟩).feeding =
        (⟨.yes, .no, .yes, .good, .no, "", ""⟩ : InspectionForm).feeding ∧
      (mkReport 7 ⟨.yes, .no, .yes, .good, .no, "", ""⟩).date = 7 :=
  ⟨by decide, add_inspection_appends_form_report 7 "h1"
    ⟨.yes, .no, .yes, .good, .no, "", ""⟩ ⟨[⟨"h1", "Pətək 1", "Bağ", []⟩]⟩
    ⟨"h1", "Pətək 1", "Bağ", []⟩ (by decide)⟩

/-- C5: for every add-inspection action whose target hive identifier is not
present in the store, the handler returns the state unchanged with an empty
effect trace: no report is added, nothing is persisted, no user-visible
feedback occurs. -/
theorem add_inspection_missing_hive_silent_noop (now : Nat) (hid : String)
    (f : InspectionForm) (s : AppState) (habs : ∀ h ∈ s.hives, h.id ≠ hid) :
    handleAddInspection now hid f s = (s, []) := by
  have hnone : findHive s hid = none := by
    rw [findHive, List.find?_eq_none]
    intro h hh
    exact fun hb => habs h hh (by simpa using hb)
  simp [handleAddInspection, hnone]

/-- Witness for `add_inspection_missing_hive_silent_noop` at the empty
store. -/
theorem add_inspection_missing_hive_silent_noop_witness :
    (∀ h ∈ (⟨[]⟩ : AppState).hives, h.id ≠ "h9") ∧
    handleAddInspection 3 "h9" ⟨.yes, .no, .yes, .good, .no, "", ""⟩ ⟨[]⟩ =
      (⟨[]⟩, []) :=
  ⟨by simp, add_inspection_missing_hive_silent_noop 3 "h9"
    ⟨.yes, .no, .yes, .good, .no, "", ""⟩ ⟨[]⟩ (by simp)⟩

/-! ### Synchronous persistence after every mutating handler -/

/-- C6: after every mutating handler (add hive, add inspection) completes,
the persisted copy of the application state equals the in-memory state:
starting from a reconciled world, replaying a handler's effect trace — the
store update and the persistence write happen inside the handler, with no
write queue, debounce or partial-write path — leaves the stored blob equal
to the serialization of the new in-memory state. -/
theorem mutating_handlers_persist_synchronously (now : Nat)
    (name location hid : String) (f : InspectionForm) (s : AppState)
    (storage : Option Json) (hinv : persistedOK s storage) :
    persistedOK (handleAddHive now name location s).1
      (applyEffects storage (handleAddHive now name location s).2) ∧
    persistedOK (handleAddInspection now hid f s).1
      (applyEffects storage (handleAddInspection now hid f s).2) := by
  constructor
  · simp [handleAddHive, applyEffects, persistedOK, saveStateToLocalStorage]
  · cases hfind : findHive s hid with
    | none => simpa [handleAddInspection, hfind, applyEffects] using hinv
    | some hv =>
      simp [handleAddInspection, hfind, applyEffects, persistedOK,
        saveStateToLocalStorage]

/-- Witness for `mutating_handlers_persist_synchronously` at the empty
store with a reconciled stored blob. -/
theorem mutating_handlers_persist_synchronously_witness :
    persistedOK ⟨[]⟩ (some (encodeState ⟨[]⟩)) ∧
    (persistedOK (handleAddHive 4 "A" "L" ⟨[]⟩).1
      (applyEffects (some (encodeState ⟨[]⟩)) (handleAddHive 4 "A" "L" ⟨[]⟩).2) ∧
    persistedOK (handleAddInspection 5 "h1" ⟨.yes, .no, .yes, .good, .no, "", ""⟩ ⟨[]⟩).1
      (applyEffects (some (encodeState ⟨[]⟩))
        (handleAddInspection 5 "h1" ⟨.yes, .no, .yes, .good, .no, "", ""⟩ ⟨[]⟩).2)) :=
  ⟨rfl, mutating_handlers_persist_synchronously 4 "A" "L" "h1"
    ⟨.yes, .no, .yes, .good, .no, "", ""⟩ ⟨[]⟩ (some (encodeState ⟨[]⟩)) rfl⟩

/-! ### The zero-hives guard of the AI-advice action -/

/-- C8: for every state with zero hives, requesting AI advice produces
exactly one blocking non-empty "no data" alert and nothing else: no network
request is issued, and neither the output region nor the loading indicator
is touched. -/
theorem advice_zero_hives_guard (res : Except Unit String) (s : AppState)
    (h : s.hives.length = 0) :
    handleGetAIAdvice res s = (s, [.alert noHivesAlertMsg]) ∧
    noHivesAlertMsg ≠ "" ∧
    Effect.netRequest ∉ (handleGetAIAdvice res s).2 ∧
    finalOutput "ai-advice-result" (handleGetAIAdvice res s).2 = none ∧
    finalLoading (handleGetAIAdvice res s).2 = none := by
  have e : handleGetAIAdvice res s = (s, [.alert noHivesAlertMsg]) := by
    simp [handleGetAIAdvice, h]
  refine ⟨e, by decide, ?_, ?_, ?_⟩ <;> rw [e] <;>
    simp [finalOutput, finalLoading, outputWrites, loadingWrites]

/-- Witness for `advice_zero_hives_guard` at the empty store. -/
theorem advice_zero_hives_guard_witness :
    (⟨[]⟩ : AppState).hives.length = 0 ∧
    (handleGetAIAdvice (.ok "ok") ⟨[]⟩ = (⟨[]⟩, [.alert noHivesAlertMsg]) ∧
    noHivesAlertMsg ≠ "" ∧
    Effect.netRequest ∉ (handleGetAIAdvice (.ok "ok") ⟨[]⟩).2 ∧
    finalOutput "ai-advice-result" (handleGetAIAdvice (.ok "ok") ⟨[]⟩).2 = none ∧
    finalLoading (handleGetAIAdvice (.ok "ok") ⟨[]⟩).2 = none) :=
  ⟨rfl, advice_zero_hives_guard (.ok "ok") ⟨[]⟩ rfl⟩

/-! ### Failure handling of the two AI actions -/

/-- C7: for every failure (network error, API error, malformed response or
thrown exception, all modelled by a rejected `Except` outcome) during
either the AI-advice action or the image-analysis action, the loading
indicator ends hidden and the relevant output region ends holding the
non-empty generic localized error message; the handlers are total
functions, so the failure never propagates as an unhandled fault. -/
theorem ai_failures_show_error_and_clear_loading (s : AppState)
    (hs : s.hives.length ≠ 0) (conv res : Except Unit String)
    (hfail : conv = .error () ∨ res = .error ()) :
    (finalLoading (handleGetAIAdvice (.error ()) s).2 = some false ∧
     finalOutput "ai-advice-result" (handleGetAIAdvice (.error ()) s).2 =
       some adviceErrorMsg ∧ adviceErrorMsg ≠ "") ∧
    (finalLoading (handleAnalyzeImage true conv res s).2 = some false ∧
     finalOutput "image-analysis-result" (handleAnalyzeImage true conv res s).2 =
       some imageErrorMsg ∧ imageErrorMsg ≠ "") := by
  have hadv : handleGetAIAdvice (.error ()) s =
      (s, [.setLoading true, .setOutput "ai-advice-result" "", .netRequest,
           .setOutput "ai-advice-result" adviceErrorMsg, .setLoading false]) := by
    simp only [handleGetAIAdvice, if_neg hs]
  refine ⟨⟨?_, ?_, by decide⟩, ?_⟩
  · rw [hadv]
    rfl
  · rw [hadv]
    rfl
  · rcases conv with e | b
    · cases e
      exact ⟨rfl, rfl, by decide⟩
    · rcases hfail with h | h
      · exact absurd h (by simp)
      · subst h
        exact ⟨rfl, rfl, by decide⟩

/-- Witness for `ai_failures_show_error_and_clear_loading` at a one-hive
store with a failing conversion and a failing request. -/
theorem ai_failures_show_error_and_clear_loading_witness :
    ((⟨[⟨"h1", "N", "L", []⟩]⟩ : AppState).hives.length ≠ 0 ∧
      ((Except.error () : Except Unit String) = .error () ∨
        (Except.error () : Except Unit String) = .error ())) ∧
    ((finalLoading (handleGetAIAdvice (.error ()) ⟨[⟨"h1", "N", "L", []⟩]⟩).2 =
        some false ∧
      finalOutput "ai-advice-result"
        (handleGetAIAdvice (.error ()) ⟨[⟨"h1", "N", "L", []⟩]⟩).2 =
        some adviceErrorMsg ∧ adviceErrorMsg ≠ "") ∧
     (finalLoading (handleAnalyzeImage true (.error ()) (.error ())
        ⟨[⟨"h1", "N", "L", []⟩]⟩).2 = some false ∧
      finalOutput "image-analysis-result"
        (handleAnalyzeImage true (.error ()) (.error ())
          ⟨[⟨"h1", "N", "L", []⟩]⟩).2 = some imageErrorMsg ∧
      imageErrorMsg ≠ "")) :=
  ⟨⟨by simp, Or.inl rfl⟩,
    ai_failures_show_error_and_clear_loading ⟨[⟨"h1", "N", "L", []⟩]⟩
      (by simp) (.error ()) (.error ()) (Or.inl rfl)⟩

/-! ### Sorting of the displayed reports -/

theorem reportLe_trans : ∀ a b c : InspectionReport,
    reportLe a b → reportLe b c → reportLe a c := by
  intro a b c hab hbc
  simp only [reportLe, decide_eq_true_eq] at *
  omega

theorem reportLe_total : ∀ a b : InspectionReport,
    reportLe a b || reportLe b a := by
  intro a b
  simp only [reportLe, Bool.or_eq_true, decide_eq_true_eq]
  omega

theorem sortReportsDesc_perm (rs : List InspectionReport) :
    (sortReportsDesc rs).Perm rs :=
  List.mergeSort_perm rs reportLe

theorem sortReportsDesc_sorted (rs : List InspectionReport) :
    (sortReportsDesc rs).Pairwise (fun a b => b.date ≤ a.date) := by
  have h := List.sorted_mergeSort reportLe_trans reportLe_total rs
  exact h.imp (fun hab => by simpa [reportLe] using hab)

/-- C9: for every hive in the store, the hive list view displays for that
hive a card whose report list is a permutation of the hive's reports (so
independent of the order in which they were added) sorted by report date in
descending order. -/
theorem hive_list_displays_reports_sorted_desc (s : AppState) (h : Hive)
    (hmem : h ∈ s.hives) :
    (⟨h.name, h.location, sortReportsDesc h.reports⟩ : HiveCard) ∈
      (renderHivesView s).2 ∧
    (sortReportsDesc h.reports).Perm h.reports ∧
    (sortReportsDesc h.reports).Pairwise (fun a b => b.date ≤ a.date) :=
  ⟨List.mem_map_of_mem _ hmem, sortReportsDesc_perm h.reports,
    sortReportsDesc_sorted h.reports⟩

/-- Witness for `hive_list_displays_reports_sorted_desc` at a one-hive
store whose reports were inserted in ascending date order. -/
theorem hive_list_displays_reports_sorted_desc_witness :
    (⟨"h1", "N", "L", [repAt 1, repAt 2]⟩ : Hive) ∈
      (⟨[⟨"h1", "N", "L", [repAt 1, repAt 2]⟩]⟩ : AppState).hives ∧
    ((⟨"N", "L", sortReportsDesc [repAt 1, repAt 2]⟩ : HiveCard) ∈
        (renderHivesView ⟨[⟨"h1", "N", "L", [repAt 1, repAt 2]⟩]⟩).2 ∧
      (sortReportsDesc [repAt 1, repAt 2]).Perm [repAt 1, repAt 2] ∧
      (sortReportsDesc [repAt 1, repAt 2]).Pairwise (fun a b => b.date ≤ a.date)) :=
  ⟨by simp,
    hive_list_displays_reports_sorted_desc ⟨[⟨"h1", "N", "L", [repAt 1, repAt 2]⟩]⟩
      ⟨"h1", "N", "L", [repAt 1, repAt 2]⟩ (by simp)⟩

/-- C10: rendering the hive list view is not read-only on the domain
store: for every state, `renderHivesView` leaves every hive's stored
report list permanently reordered into descending date order (first
conjunct), and on a store whose reports were inserted out of that order
the post-render store differs from the pre-render store, so the insertion
order is lost (second conjunct). -/
theorem render_hives_view_sorts_store_in_place :
    (∀ s : AppState, (renderHivesView s).1.hives =
      s.hives.map (fun h => { h with reports := sortReportsDesc h.reports })) ∧
    (renderHivesView ⟨[⟨"h1", "N", "L", [repAt 1, repAt 2]⟩]⟩).1 ≠
      ⟨[⟨"h1", "N", "L", [repAt 1, repAt 2]⟩]⟩ := by
  refine ⟨fun s => rfl, fun heq => ?_⟩
  have hlist : sortReportsDesc [repAt 1, repAt 2] = [repAt 1, repAt 2] := by
    have hh := congrArg AppState.hives heq
    simpa [renderHivesView] using hh
  have hsorted := sortReportsDesc_sorted [repAt 1, repAt 2]
  rw [hlist] at hsorted
  have hle : (repAt 2).date ≤ (repAt 1).date :=
    (List.pairwise_cons.mp hsorted).1 (repAt 2) (by simp)
  simp [repAt] at hle

/-! ### Identifier uniqueness -/

theorem digitChar_inj_lt : ∀ a, a < 10 → ∀ b, b < 10 →
    Nat.digitChar a = Nat.digitChar b → a = b := by decide

theorem map_digitChar_inj : ∀ l1 l2 : List Nat, (∀ d ∈ l1, d < 10) →
    (∀ d ∈ l2, d < 10) → l1.map Nat.digitChar = l2.map Nat.digitChar → l1 = l2 := by
  intro l1
  induction l1 with
  | nil =>
    intro l2 _ _ h
    cases l2 with
    | nil => rfl
    | cons b bs => simp at h
  | cons a as ih =>
    intro l2 h1 h2 h
    cases l2 with
    | nil => simp at h
    | cons b bs =>
      simp only [List.map_cons, List.cons.injEq] at h
      have hab : a = b :=
        digitChar_inj_lt a (h1 a (by simp)) b (h2 b (by simp)) h.1
      have htl := ih bs (fun d hd => h1 d (by simp [hd]))
        (fun d hd => h2 d (by simp [hd])) h.2
      rw [hab, htl]

theorem natStr_injective : Function.Injective natStr := by
  intro m n h
  by_cases hm : m = 0 <;> by_cases hn : n = 0
  · omega
  · exfalso
    rw [natStr, if_pos hm, natStr, if_neg hn] at h
    have hd : ['0'] = (Nat.digits 10 n).reverse.map Nat.digitChar :=
      congrArg String.data h
    have hrev : ∃ d, (Nat.digits 10 n).reverse = [d] ∧ Nat.digitChar d = '0' := by
      cases hr : (Nat.digits 10 n).reverse with
      | nil => rw [hr] at hd; simp at hd
      | cons d ds =>
        rw [hr] at hd
        simp only [List.map_cons, List.cons.injEq] at hd
        have hds : ds = [] := by
          cases ds with
          | nil => rfl
          | cons e es => simp at hd
        exact ⟨d, by rw [hds], hd.1.symm⟩
    obtain ⟨d, hsing, hchar⟩ := hrev
    have hdig : Nat.digits 10 n = [d] := by
      have := congrArg List.reverse hsing
      simpa using this
    have hdlt : d < 10 :=
      Nat.digits_lt_base (by norm_num) (by rw [hdig]; simp)
    have hd0 : d = 0 := digitChar_inj_lt d hdlt 0 (by norm_num) (by simpa using hchar)
    have := Nat.ofDigits_digits 10 n
    rw [hdig, hd0] at this
    simp [Nat.ofDigits] at this
    omega
  · exfalso
    rw [natStr, if_neg hm, natStr, if_pos hn] at h
    have hd : (Nat.digits 10 m).reverse.map Nat.digitChar = ['0'] :=
      congrArg String.data h
    have hrev : ∃ d, (Nat.digits 10 m).reverse = [d] ∧ Nat.digitChar d = '0' := by
      cases hr : (Nat.digits 10 m).reverse with
      | nil => rw [hr] at hd; simp at hd
      | cons d ds =>
        rw [hr] at hd
        simp only [List.map_cons, List.cons.injEq] at hd
        have hds : ds = [] := by
          cases ds with
          | nil => rfl
          | cons e es => simp at hd
        exact ⟨d, by rw [hds], hd.1⟩
    obtain ⟨d, hsing, hchar⟩ := hrev
    have hdig : Nat.digits 10 m = [d] := by
      have := congrArg List.reverse hsing
      simpa using this
    have hdlt : d < 10 :=
      Nat.digits_lt_base (by norm_num) (by rw [hdig]; simp)
    have hd0 : d = 0 := digitChar_inj_lt d hdlt 0 (by norm_num) (by simpa using hchar)
    have := Nat.ofDigits_digits 10 m
    rw [hdig, hd0] at this
    simp [Nat.ofDigits] at this
    omega
  · rw [natStr, if_neg hm, natStr, if_neg hn] at h
    have hd : (Nat.digits 10 m).reverse.map Nat.digitChar =
        (Nat.digits 10 n).reverse.map Nat.digitChar :=
      congrArg String.data h
    have hb1 : ∀ d ∈ (Nat.digits 10 m).reverse, d < 10 := fun d hd =>
      Nat.digits_lt_base (by norm_num) (List.mem_reverse.mp hd)
    have hb2 : ∀ d ∈ (Nat.digits 10 n).reverse, d < 10 := fun d hd =>
      Nat.digits_lt_base (by norm_num) (List.mem_reverse.mp hd)
    have hrev := map_digitChar_inj _ _ hb1 hb2 hd
    have hdig : Nat.digits 10 m = Nat.digits 10 n := by
      have := congrArg List.reverse hrev
      simpa using this
    have h1 := Nat.ofDigits_digits 10 m
    have h2 := Nat.ofDigits_digits 10 n
    rw [hdig] at h1
    rw [← h1, h2]

theorem append_left_cancel_str {p a b : String} (h : p ++ a = p ++ b) : a = b := by
  have hd := congrArg String.data h
  simp only [String.data_append] at hd
  exact String.ext (List.append_cancel_left hd)

theorem mkHiveId_injective : Function.Injective mkHiveId := by
  intro a b h
  exact natStr_injective (append_left_cancel_str h)

theorem mkReportId_injective : Function.Injective mkReportId := by
  intro a b h
  exact natStr_injective (append_left_cancel_str h)

theorem reportIdsOf_cons (h : Hive) (hs : List Hive) :
    reportIdsOf (h :: hs) = h.reports.map InspectionReport.id ++ reportIdsOf hs := rfl

theorem hiveIds_addHive (now : Nat) (name location : String) (s : AppState) :
    hiveIds (handleAddHive now name location s).1 = hiveIds s ++ [mkHiveId now] := by
  simp [hiveIds, handleAddHive, newHive]

theorem reportIds_addHive (now : Nat) (name location : String) (s : AppState) :
    reportIds (handleAddHive now name location s).1 = reportIds s := by
  simp [reportIds, reportIdsOf, handleAddHive, newHive]

theorem hiveIds_pushReport (hives : List Hive) (hid : String) (r : InspectionReport) :
    (pushReport hives hid r).map Hive.id = hives.map Hive.id := by
  induction hives with
  | nil => rfl
  | cons a as ih =>
    cases ha : (a.id == hid) with
    | true => simp [pushReport, ha]
    | false => simp [pushReport, ha, ih]

theorem reportIds_pushReport (hives : List Hive) (hid : String) (r : InspectionReport) :
    reportIdsOf (pushReport hives hid r) = reportIdsOf hives ∨
    (reportIdsOf (pushReport hives hid r)).Perm (r.id :: reportIdsOf hives) := by
  induction hives with
  | nil => left; rfl
  | cons a as ih =>
    cases ha : (a.id == hid) with
    | true =>
      right
      have hpush : pushReport (a :: as) hid r =
          { a with reports := a.reports ++ [r] } :: as := by
        simp [pushReport, ha]
      rw [hpush, reportIdsOf_cons, reportIdsOf_cons]
      simp only [List.map_append, List.map_cons, List.map_nil, List.append_assoc]
      exact List.perm_middle
    | false =>
      have hpush : pushReport (a :: as) hid r = a :: pushReport as hid r := by
        simp [pushReport, ha]
      rw [hpush, reportIdsOf_cons, reportIdsOf_cons]
      rcases ih with ih | ih
      · left; rw [ih]
      · right
        have hmid := (ih.append_left (a.reports.map InspectionReport.id)).trans
          (List.perm_middle)
        exact hmid

theorem addInspection_ids (now : Nat) (hid : String) (f : InspectionForm)
    (s : AppState) :
    (handleAddInspection now hid f s).1 = s ∨
    (hiveIds (handleAddInspection now hid f s).1 = hiveIds s ∧
      (reportIds (handleAddInspection now hid f s).1 = reportIds s ∨
       (reportIds (handleAddInspection now hid f s).1).Perm
         (mkReportId now :: reportIds s))) := by
  cases hfind : findHive s hid with
  | none => left; simp [handleAddInspection, hfind]
  | some hv =>
    right
    constructor
    · simp only [handleAddInspection, hfind, hiveIds]
      exact hiveIds_pushReport s.hives hid (mkReport now f)
    · have h := reportIds_pushReport s.hives hid (mkReport now f)
      simpa [handleAddInspection, hfind, reportIds, mkReport] using h

theorem idsFresh_mono {t u : Nat} {s : AppState} (h : idsFresh t s) (htu : t ≤ u) :
    idsFresh u s := by
  obtain ⟨h1, h2, h3, h4⟩ := h
  refine ⟨fun i hi => ?_, fun i hi => ?_, h3, h4⟩
  · obtain ⟨v, hv, he⟩ := h1 i hi
    exact ⟨v, by omega, he⟩
  · obtain ⟨v, hv, he⟩ := h2 i hi
    exact ⟨v, by omega, he⟩

theorem idsFresh_addHive {t : Nat} {s : AppState} (h : idsFresh t s)
    (nm loc : String) : idsFresh (t + 1) (handleAddHive t nm loc s).1 := by
  obtain ⟨h1, h2, h3, h4⟩ := h
  refine ⟨?_, ?_, ?_, ?_⟩
  · rw [hiveIds_addHive]
    intro i hi
    rcases List.mem_append.mp hi with hi | hi
    · obtain ⟨v, hv, he⟩ := h1 i hi
      exact ⟨v, by omega, he⟩
    · obtain rfl : i = mkHiveId t := by simpa using hi
      exact ⟨t, by omega, rfl⟩
  · rw [reportIds_addHive]
    intro i hi
    obtain ⟨v, hv, he⟩ := h2 i hi
    exact ⟨v, by omega, he⟩
  · rw [hiveIds_addHive]
    refine h3.append (List.nodup_singleton _) ?_
    intro i hi hmem
    obtain rfl : i = mkHiveId t := by simpa using hmem
    obtain ⟨v, hv, he⟩ := h1 _ hi
    have : v = t := mkHiveId_injective he.symm
    omega
  · rw [reportIds_addHive]
    exact h4

theorem idsFresh_addInspection {t : Nat} {s : AppState} (h : idsFresh t s)
    (hid : String) (f : InspectionForm) :
    idsFresh (t + 1) (handleAddInspection t hid f s).1 := by
  rcases addInspection_ids t hid f s with heq | ⟨hh, hr⟩
  · rw [heq]
    exact idsFresh_mono h (by omega)
  · obtain ⟨h1, h2, h3, h4⟩ := h
    refine ⟨?_, ?_, ?_, ?_⟩
    · rw [hh]
      intro i hi
      obtain ⟨v, hv, he⟩ := h1 i hi
      exact ⟨v, by omega, he⟩
    · rcases hr with hr | hr
      · rw [hr]
        intro i hi
        obtain ⟨v, hv, he⟩ := h2 i hi
        exact ⟨v, by omega, he⟩
      · intro i hi
        rcases List.mem_cons.mp (hr.mem_iff.mp hi) with rfl | hi2
        · exact ⟨t, by omega, rfl⟩
        · obtain ⟨v, hv, he⟩ := h2 i hi2
          exact ⟨v, by omega, he⟩
    · rw [hh]
      exact h3
    · rcases hr with hr | hr
      · rw [hr]
        exact h4
      · refine (List.Perm.nodup_iff hr).mpr (List.nodup_cons.mpr ⟨?_, h4⟩)
        intro hmem
        obtain ⟨v, hv, he⟩ := h2 _ hmem
        have : v = t := mkReportId_injective he.symm
        omega

theorem idsFresh_applyAction {t : Nat} {s : AppState} (h : idsFresh t s)
    (a : Action) (ht : a.time = t) : idsFresh (t + 1) (applyAction s a) := by
  cases a with
  | addHive u nm loc =>
    obtain rfl : u = t := ht
    exact idsFresh_addHive h nm loc
  | addInspection u hid f =>
    obtain rfl : u = t := ht
    exact idsFresh_addInspection h hid f

theorem idsFresh_runActions : ∀ (acts : List Action) (s : AppState) (t : Nat),
    idsFresh t s → (∀ a ∈ acts, t ≤ a.time) →
    (acts.map Action.time).Pairwise (· < ·) →
    ∃ u, idsFresh u (runActions s acts) := by
  intro acts
  induction acts with
  | nil =>
    intro s t h _ _
    exact ⟨t, h⟩
  | cons a as ih =>
    intro s t h hle hpw
    have hfirst : idsFresh a.time s := idsFresh_mono h (hle a (by simp))
    have hstep : idsFresh (a.time + 1) (applyAction s a) :=
      idsFresh_applyAction hfirst a rfl
    rw [List.map_cons] at hpw
    have hpw2 := List.pairwise_cons.mp hpw
    have hle2 : ∀ b ∈ as, a.time + 1 ≤ b.time := by
      intro b hb
      have := hpw2.1 b.time (List.mem_map_of_mem Action.time hb)
      omega
    have hrun := ih (applyAction s a) (a.time + 1) hstep hle2 hpw2.2
    simpa [runActions] using hrun

/-- C4 (amended): two creations within the same millisecond collide, so
unqualified uniqueness fails (see the counterexample); for every sequence
of add-hive and add-inspection actions run from the empty initial state
whose clock values are strictly increasing — equivalently, no two actions
share a millisecond, since wall-clock time is non-decreasing — every hive
identifier is unique among hives and every report identifier is unique
among reports. -/
theorem ids_unique_for_distinct_timestamps (acts : List Action)
    (hsorted : (acts.map Action.time).Pairwise (· < ·)) :
    (hiveIds (runActions ⟨[]⟩ acts)).Nodup ∧
    (reportIds (runActions ⟨[]⟩ acts)).Nodup := by
  have h0 : idsFresh 0 (⟨[]⟩ : AppState) := by
    refine ⟨?_, ?_, ?_, ?_⟩ <;> simp [hiveIds, reportIds, reportIdsOf]
  obtain ⟨u, hu⟩ :=
    idsFresh_runActions acts ⟨[]⟩ 0 h0 (fun a _ => Nat.zero_le _) hsorted
  exact ⟨hu.2.2.1, hu.2.2.2⟩

/-- Witness for `ids_unique_for_distinct_timestamps` on a two-action run
with strictly increasing clock values. -/
theorem ids_unique_for_distinct_timestamps_witness :
    (([Action.addHive 1 "A" "L",
       Action.addInspection 2 "x" ⟨.yes, .no, .yes, .good, .no, "", ""⟩].map
        Action.time).Pairwise (· < ·)) ∧
    ((hiveIds (runActions ⟨[]⟩
        [Action.addHive 1 "A" "L",
         Action.addInspection 2 "x" ⟨.yes, .no, .yes, .good, .no, "", ""⟩])).Nodup ∧
     (reportIds (runActions ⟨[]⟩
        [Action.addHive 1 "A" "L",
         Action.addInspection 2 "x" ⟨.yes, .no, .yes, .good, .no, "", ""⟩])).Nodup) :=
  ⟨by simp [Action.time], ids_unique_for_distinct_timestamps
    [Action.addHive 1 "A" "L",
     Action.addInspection 2 "x" ⟨.yes, .no, .yes, .good, .no, "", ""⟩]
    (by simp [Action.time])⟩

/-- Counterexample to C4 as stated: two add-hive actions in the same
millisecond (clock value 5) produce two hives carrying the same
identifier, so hive identifiers are not unique. -/
theorem ids_collide_within_same_millisecond :
    ¬ (hiveIds (runActions ⟨[]⟩
        [Action.addHive 5 "A" "Loc 1", Action.addHive 5 "B" "Loc 2"])).Nodup := by
  intro h
  have he : hiveIds (runActions ⟨[]⟩
      [Action.addHive 5 "A" "Loc 1", Action.addHive 5 "B" "Loc 2"]) =
      [mkHiveId 5, mkHiveId 5] := rfl
  rw [he] at h
  simp at h

end Beekeeping
